import Mathlib

/-!
Shallow embedding of go-vcloud-director (wwt/go-vcloud-director).

The embedding covers the metadata ignore-filter subsystem of
`govcd/metadata_v2.go`, the by-name lookups of
`govcd/nsxt_segment_profile_template.go`, `govcd/certificate_management.go`
and `govcd/provider_vdc.go`, and (modelled from the spec, because their
implementations are not part of the provided sources) the task poller and
the OpenAPI pagination helper.

Go regular expressions (`regexp.Regexp` used only through `MatchString`)
are modelled as abstract matchers `String → Bool`.  Go string primitives
(`strings.TrimSpace`, `strings.Split`, `strings.Contains`) are modelled
over character lists so that all definitions reduce by `decide`/`rfl`.
The Go unicode.IsSpace predicate is modelled by `Char.isWhitespace` (space,
tab, CR, LF), which agrees with Go on all inputs occurring here.
-/

/-- Model of Go strings.TrimSpace: drop leading and trailing whitespace. -/
def goTrimSpace (s : String) : String :=
  String.mk (((s.data.dropWhile Char.isWhitespace).reverse.dropWhile Char.isWhitespace).reverse)

/-- Helper for goSplit: split a character list at every occurrence of the
separator character, accumulating the current segment in reverse. -/
def goSplitAux (sep : Char) : List Char → List Char → List (List Char)
  | [], acc => [acc.reverse]
  | c :: cs, acc =>
    if c == sep then acc.reverse :: goSplitAux sep cs []
    else goSplitAux sep cs (c :: acc)

/-- Model of Go strings.Split with a one-character separator: the list of
segments between occurrences of the separator.  As in Go,
`goSplit "" sep = [""]` and the result always has (number of separator
occurrences + 1) segments. -/
def goSplit (s : String) (sep : Char) : List String :=
  (goSplitAux sep s.data []).map String.mk

/-- Whether the pattern occurs as a leading chunk of the character list. -/
def chunkLeads : List Char → List Char → Bool
  | [], _ => true
  | _ :: _, [] => false
  | a :: as, b :: bs => a == b && chunkLeads as bs

/-- Whether the pattern occurs as a contiguous chunk anywhere in the list. -/
def containsChunk (pattern : List Char) : List Char → Bool
  | [] => pattern.isEmpty
  | c :: cs => chunkLeads pattern (c :: cs) || containsChunk pattern cs

/-- Model of Go strings.Contains: substring occurrence. -/
def goContains (s substr : String) : Bool :=
  containsChunk substr.data s.data

/-- A Go regexp.Regexp used only through MatchString: an abstract matcher. -/
def GoRegex : Type := String → Bool

/-- Model of regexp.MatchString. -/
def GoRegex.MatchString (r : GoRegex) (s : String) : Bool := r s

/-- The IgnoredMetadata rule structure of metadata_v2.go: all non-nil
fields are evaluated with a logical AND. -/
structure IgnoredMetadata where
  ObjectType : Option String
  ObjectName : Option String
  KeyRegex   : Option GoRegex
  ValueRegex : Option GoRegex

/-- The normalisedMetadata auxiliary structure of metadata_v2.go. -/
structure normalisedMetadata where
  ObjectType : String
  ObjectName : String
  Key        : String
  Value      : String
deriving DecidableEq, Inhabited

/-- Whether all four fields of an IgnoredMetadata rule are nil; such a rule
is skipped (continue) by both filtering loops. -/
def allFieldsNil (entryToIgnore : IgnoredMetadata) : Bool :=
  entryToIgnore.ObjectType.isNone && entryToIgnore.ObjectName.isNone &&
  entryToIgnore.KeyRegex.isNone && entryToIgnore.ValueRegex.isNone

/-- The object-type conjunct of the filtering condition:
entryToIgnore.ObjectType == nil || TrimSpace(*ObjectType) == "" ||
*ObjectType == entry.ObjectType. -/
def objectTypeCondition (filterType : Option String) (objectType : String) : Bool :=
  match filterType with
  | none => true
  | some t => goTrimSpace t == "" || t == objectType

/-- The object-name conjunct of the filtering condition:
entryToIgnore.ObjectName == nil || TrimSpace(*ObjectName) == "" ||
TrimSpace(entryName) == "" || *ObjectName == entryName. -/
def objectNameCondition (filterName : Option String) (objectName : String) : Bool :=
  match filterName with
  | none => true
  | some n => goTrimSpace n == "" || goTrimSpace objectName == "" || n == objectName

/-- The key-regex conjunct: entryToIgnore.KeyRegex == nil ||
KeyRegex.MatchString(key). -/
def keyRegexCondition (filterRegex : Option GoRegex) (key : String) : Bool :=
  match filterRegex with
  | none => true
  | some r => r.MatchString key

/-- The value-regex conjunct: entryToIgnore.ValueRegex == nil ||
ValueRegex.MatchString(value). -/
def valueRegexCondition (filterRegex : Option GoRegex) (value : String) : Bool :=
  match filterRegex with
  | none => true
  | some r => r.MatchString value

/-- The body of the loop of filterSingleGenericMetadataEntry for one rule:
skip (false) when all fields are nil, otherwise the conjunction of the four
conditions. -/
def ruleIgnoresEntry (entryToIgnore : IgnoredMetadata)
    (normalisedMetadataEntry : normalisedMetadata) : Bool :=
  if allFieldsNil entryToIgnore then false
  else
    objectTypeCondition entryToIgnore.ObjectType normalisedMetadataEntry.ObjectType &&
    objectNameCondition entryToIgnore.ObjectName normalisedMetadataEntry.ObjectName &&
    keyRegexCondition entryToIgnore.KeyRegex normalisedMetadataEntry.Key &&
    valueRegexCondition entryToIgnore.ValueRegex normalisedMetadataEntry.Value

/-- filterSingleGenericMetadataEntry of metadata_v2.go: returns whether the
normalised entry is to be ignored, i.e. whether some rule in the slice
makes the compound condition true. -/
def filterSingleGenericMetadataEntry (normalisedMetadataEntry : normalisedMetadata)
    (metadataToIgnore : List IgnoredMetadata) : Bool :=
  if metadataToIgnore.isEmpty then false
  else metadataToIgnore.any (fun entryToIgnore => ruleIgnoresEntry entryToIgnore normalisedMetadataEntry)

/-- The types.MetadataTypedValue structure (XsiType attribute and value). -/
structure MetadataTypedValue where
  XsiType : String
  Value   : String
deriving DecidableEq, Inhabited

/-- The types.MetadataDomainTag structure (visibility attribute and domain). -/
structure MetadataDomainTag where
  Visibility : String
  Domain     : String
deriving DecidableEq, Inhabited

/-- The types.MetadataValue structure; the Domain pointer may be nil. -/
structure MetadataValue where
  Xmlns      : String
  Xsi        : String
  TypedValue : MetadataTypedValue
  Domain     : Option MetadataDomainTag
deriving DecidableEq, Inhabited

/-- The types.MetadataEntry structure; the Domain pointer may be nil. -/
structure MetadataEntry where
  Xmlns      : String
  Xsi        : String
  Key        : String
  TypedValue : MetadataTypedValue
  Domain     : Option MetadataDomainTag
deriving DecidableEq, Inhabited

/-- The types.Metadata structure.  The XMLName and Link fields are opaque
payload carried through unchanged; the Type field of the Go struct is named
MType because Type is a Lean keyword. -/
structure Metadata where
  XMLName       : String
  Xmlns         : String
  HREF          : String
  MType         : String
  Xsi           : String
  Link          : List String
  MetadataEntry : List MetadataEntry
deriving DecidableEq, Inhabited

/-- getMetadataObjectTypeFromHref of metadata_v2.go: the second-to-last
segment of the HREF split at the slash character; an error when the split
yields fewer than two segments. -/
def getMetadataObjectTypeFromHref (href : String) : Except String String :=
  let splitHref := goSplit href (Char.ofNat 47)
  if splitHref.length < 2 then
    .error ("could not find any object type in the provided HREF " ++ href)
  else
    .ok (splitHref.getD (splitHref.length - 2) "")

/-- normaliseXmlMetadata of metadata_v2.go: builds the normalised view of an
XML metadata entry, deriving the object type from the HREF. -/
def normaliseXmlMetadata (key href objectName : String) (metadataEntry : MetadataValue) :
    Except String normalisedMetadata :=
  match getMetadataObjectTypeFromHref href with
  | .error e => .error e
  | .ok objectType =>
    .ok { ObjectType := objectType, ObjectName := objectName, Key := key,
          Value := metadataEntry.TypedValue.Value }

/-- filterSingleXmlMetadataEntry of metadata_v2.go: normalises the entry and
returns it unchanged, or an error whose message contains the word ignored
when the generic filter matches. -/
def filterSingleXmlMetadataEntry (key href objectName : String)
    (metadataEntry : MetadataValue) (metadataToIgnore : List IgnoredMetadata) :
    Except String MetadataValue :=
  match normaliseXmlMetadata key href objectName metadataEntry with
  | .error e => .error e
  | .ok normalisedEntry =>
    if filterSingleGenericMetadataEntry normalisedEntry metadataToIgnore then
      .error ("the metadata entry with key " ++ key ++ " and value " ++
        metadataEntry.TypedValue.Value ++ " is being ignored")
    else
      .ok metadataEntry

/-- The entry loop of filterXmlMetadata: an entry whose filtering error
message contains the word ignored is dropped, any other error aborts, and a
passing entry is kept in order. -/
def filterXmlMetadataLoop (href objectName : String)
    (metadataToIgnore : List IgnoredMetadata) :
    List MetadataEntry → Except String (List MetadataEntry)
  | [] => .ok []
  | originalEntry :: rest =>
    match filterSingleXmlMetadataEntry originalEntry.Key href objectName
        { Xmlns := "", Xsi := "", TypedValue := originalEntry.TypedValue,
          Domain := originalEntry.Domain } metadataToIgnore with
    | .error e =>
      if goContains e "ignored" then
        filterXmlMetadataLoop href objectName metadataToIgnore rest
      else
        .error e
    | .ok _ =>
      match filterXmlMetadataLoop href objectName metadataToIgnore rest with
      | .error e => .error e
      | .ok filtered => .ok (originalEntry :: filtered)

/-- filterXmlMetadata of metadata_v2.go: returns the input unchanged when
there are no ignore rules, and otherwise a copy of the metadata whose
entries survive the ignore filter. -/
def filterXmlMetadata (allMetadata : Metadata) (href objectName : String)
    (metadataToIgnore : List IgnoredMetadata) : Except String Metadata :=
  if metadataToIgnore.isEmpty then .ok allMetadata
  else
    match filterXmlMetadataLoop href objectName metadataToIgnore allMetadata.MetadataEntry with
    | .error e => .error e
    | .ok filteredMetadata =>
      .ok { XMLName := allMetadata.XMLName, Xmlns := allMetadata.Xmlns,
            HREF := allMetadata.HREF, MType := allMetadata.MType,
            Xsi := allMetadata.Xsi, Link := allMetadata.Link,
            MetadataEntry := filteredMetadata }

/-- getMetadataByKey of metadata_v2.go.  The HTTP GET of the metadata value
stored at the key is modelled by its outcome httpGet; the fetched value is
then passed through the read-side ignore filter. -/
def getMetadataByKey (httpGet : Except String MetadataValue)
    (requestUri name key : String) (ignoredMetadata : List IgnoredMetadata) :
    Except String MetadataValue :=
  match httpGet with
  | .error e => .error e
  | .ok metadata => filterSingleXmlMetadataEntry key requestUri name metadata ignoredMetadata

/-- The rule loop of filterMetadataToDelete of metadata_v2.go: skips
all-nil rules, and at the first rule whose object-type, object-name and
key-regex conditions hold, either rejects the deletion (nil value regex, or
value regex matching the fetched value) or accepts it (value regex present
and not matching); the loop does not look at later rules after that first
candidate. -/
def filterMetadataToDeleteLoop (httpGet : Except String MetadataValue)
    (key href objectName objectType : String)
    (ignoredMetadata : List IgnoredMetadata) :
    List IgnoredMetadata → Except String Unit
  | [] => .ok ()
  | entryToIgnore :: rest =>
    if allFieldsNil entryToIgnore then
      filterMetadataToDeleteLoop httpGet key href objectName objectType ignoredMetadata rest
    else if objectTypeCondition entryToIgnore.ObjectType objectType &&
            objectNameCondition entryToIgnore.ObjectName objectName &&
            keyRegexCondition entryToIgnore.KeyRegex key then
      match entryToIgnore.ValueRegex with
      | none => .error ("cannot delete metadata entry " ++ key ++ " as it is ignored")
      | some r =>
        match getMetadataByKey httpGet href objectName key ignoredMetadata with
        | .error e => .error e
        | .ok metadataEntry =>
          if r.MatchString metadataEntry.TypedValue.Value then
            .error ("cannot delete metadata entry " ++ key ++ " as it is ignored")
          else
            .ok ()
    else
      filterMetadataToDeleteLoop httpGet key href objectName objectType ignoredMetadata rest

/-- filterMetadataToDelete of metadata_v2.go: passes immediately when the
rule list is empty, fails when the HREF yields no object type, and
otherwise runs the rule loop. -/
def filterMetadataToDelete (httpGet : Except String MetadataValue)
    (key href objectName : String) (isSystem : Bool)
    (metadataToIgnore : List IgnoredMetadata) : Except String Unit :=
  if metadataToIgnore.isEmpty then .ok ()
  else
    match getMetadataObjectTypeFromHref href with
    | .error e => .error e
    | .ok objectType =>
      filterMetadataToDeleteLoop httpGet key href objectName objectType
        metadataToIgnore metadataToIgnore

/-- deleteMetadata of metadata_v2.go: runs filterMetadataToDelete and only
when it passes issues the HTTP DELETE request (ExecuteTaskRequest with
MethodDelete).  The Boolean of the result records whether the DELETE
request was issued. -/
def deleteMetadata (httpGet : Except String MetadataValue)
    (requestUri name key : String) (isSystem : Bool)
    (ignoredMetadata : List IgnoredMetadata) : Except String Unit × Bool :=
  match filterMetadataToDelete httpGet key requestUri name isSystem ignoredMetadata with
  | .error e => (.error e, false)
  | .ok _ => (.ok (), true)

/-- The types.XMLNamespaceVCloud constant. -/
def XMLNamespaceVCloud : String := "http://www.vmware.com/vcloud/v1.5"

/-- The types.XMLNamespaceXSI constant. -/
def XMLNamespaceXSI : String := "http://www.w3.org/2001/XMLSchema-instance"

/-- The types.MetadataReadWriteVisibility constant. -/
def MetadataReadWriteVisibility : String := "READWRITE"

/-- The types.MetadataReadOnlyVisibility constant. -/
def MetadataReadOnlyVisibility : String := "READONLY"

/-- The types.MetadataHiddenVisibility constant. -/
def MetadataHiddenVisibility : String := "PRIVATE"

/-- The request that addMetadata sends when the ignore filter passes: the
path of the PUT (the path component of the parsed request URI with the
metadata suffix appended) and the metadata value sent as the body. -/
structure AddMetadataRequest where
  path        : String
  newMetadata : MetadataValue
deriving DecidableEq, Inhabited

/-- addMetadata of metadata_v2.go.  The argument apiEndpointPath is the
path component of urlParseRequestURI(requestUri).  The function builds the
new metadata value with domain SYSTEM and the caller visibility, then for
the GENERAL domain (isSystem false) rewrites the domain to GENERAL and
forces the visibility to read-write, appends the matching metadata suffix
to the path, runs the single-entry ignore filter against the request URI,
and on success issues the PUT request modelled by the returned value. -/
def addMetadata (apiEndpointPath requestUri name key value typedValue visibility : String)
    (isSystem : Bool) (ignoredMetadata : List IgnoredMetadata) :
    Except String AddMetadataRequest :=
  let newMetadata : MetadataValue :=
    { Xmlns := XMLNamespaceVCloud, Xsi := XMLNamespaceXSI,
      TypedValue := { XsiType := typedValue, Value := value },
      Domain := some { Visibility := visibility, Domain := "SYSTEM" } }
  let path :=
    if isSystem then apiEndpointPath ++ "/metadata/SYSTEM/" ++ key
    else apiEndpointPath ++ "/metadata/" ++ key
  let newMetadata :=
    if isSystem then newMetadata
    else
      { newMetadata with
        Domain := some
          { Visibility :=
              (if visibility != MetadataReadWriteVisibility then MetadataReadWriteVisibility
               else visibility),
            Domain := "GENERAL" } }
  match filterSingleXmlMetadataEntry key requestUri name newMetadata ignoredMetadata with
  | .error e => .error e
  | .ok _ => .ok { path := path, newMetadata := newMetadata }

/-- The types.Metadata payload that mergeAllMetadata builds from the input
key-to-value map before filtering.  The Go map is modelled as an
association list in some iteration order. -/
def mergeAllMetadataPayload (metadata : List (String × MetadataValue)) : Metadata :=
  { XMLName := "", Xmlns := XMLNamespaceVCloud, HREF := "", MType := "",
    Xsi := XMLNamespaceXSI, Link := [],
    MetadataEntry := metadata.map (fun kv =>
      { Xmlns := XMLNamespaceVCloud, Xsi := XMLNamespaceXSI, Key := kv.1,
        TypedValue := kv.2.TypedValue, Domain := kv.2.Domain }) }

/-- mergeAllMetadata of metadata_v2.go: builds the payload, filters it with
the read-side ignore filter, errors when no metadata entries remain, and
otherwise issues the POST request whose body is the returned filtered
metadata. -/
def mergeAllMetadata (requestUri name : String)
    (metadata : List (String × MetadataValue))
    (ignoredMetadata : List IgnoredMetadata) : Except String Metadata :=
  match filterXmlMetadata (mergeAllMetadataPayload metadata) requestUri name ignoredMetadata with
  | .error e => .error e
  | .ok filteredMetadata =>
    if filteredMetadata.MetadataEntry.length == 0 then
      .error "after filtering metadata, there is no metadata to merge"
    else
      .ok filteredMetadata

/-- Errors returned by the by-name lookups: either the ErrorEntityNotFound
sentinel or an ordinary formatted error. -/
inductive LookupError where
  | entityNotFound
  | other (msg : String)
deriving DecidableEq, Inhabited

/-- The ErrorEntityNotFound sentinel value. -/
def ErrorEntityNotFound : LookupError := .entityNotFound

/-- A rights bundle as returned by GetAllRightsBundles (opaque payload). -/
structure RightsBundle where
  Name : String
deriving DecidableEq, Inhabited

/-- GetRightsBundleByName of nsxt_segment_profile_template.go.  The
GetAllRightsBundles call with the name filter is modelled by its outcome
rightsBundlesResult.  Zero results yield the ErrorEntityNotFound sentinel,
more than one result yields a formatted error, one result is returned. -/
def GetRightsBundleByName (rightsBundlesResult : Except LookupError (List RightsBundle))
    (name : String) : Except LookupError RightsBundle :=
  match rightsBundlesResult with
  | .error e => .error e
  | .ok rightsBundles =>
    match rightsBundles with
    | [] => .error ErrorEntityNotFound
    | [rb] => .ok rb
    | _ :: _ :: _ =>
      .error (.other ("more than one rights bundle found with name " ++ name))

/-- The nested CertificateLibrary data of a certificate (only the Alias
field is consulted by the lookup). -/
structure CertificateLibraryItem where
  Alias : String
deriving DecidableEq, Inhabited

/-- A certificate as returned by getAllCertificateFromLibrary. -/
structure Certificate where
  CertificateLibrary : CertificateLibraryItem
deriving DecidableEq, Inhabited

/-- getCertificateFromLibraryByName of certificate_management.go.  The
shouldDoSlowSearch decision (brute-force search when the name contains
characters the API rejects) is modelled by the Boolean slowSearch, and the
getAllCertificateFromLibrary call by its outcome certificatesResult (under
the server-side alias filter when slowSearch is false, unfiltered when
slowSearch is true).  Zero certificates yield the ErrorEntityNotFound
sentinel; in the slow path the certificates are filtered locally by alias
equality and zero matches yield the sentinel and several matches a
formatted error; in the fast path several certificates yield a formatted
error; otherwise the single match is returned. -/
def getCertificateFromLibraryByName (slowSearch : Bool)
    (certificatesResult : Except LookupError (List Certificate))
    (name : String) : Except LookupError Certificate :=
  match certificatesResult with
  | .error e => .error e
  | .ok certificates =>
    if certificates.length == 0 then .error ErrorEntityNotFound
    else
      if slowSearch then
        match certificates.filter (fun c => c.CertificateLibrary.Alias == name) with
        | [] => .error ErrorEntityNotFound
        | [c] => .ok c
        | _ :: _ :: _ =>
          .error (.other ("more than one certificate found with name " ++ name))
      else
        if certificates.length > 1 then
          .error (.other ("more than one certificate found with name " ++ name))
        else
          .ok (certificates.headD default)

/-- A provider VDC query record as returned in
foundProviderVdcs.Results.VMWProviderVdcRecord. -/
structure VMWProviderVdcRecord where
  Name : String
  HREF : String
deriving DecidableEq, Inhabited

/-- A provider VDC entity as returned by GetProviderVdcByHref or
GetProviderVdcExtendedByHref (opaque payload). -/
structure ProviderVdcEntity where
  Id : String
deriving DecidableEq, Inhabited

/-- getProviderVdcByName of provider_vdc.go.  The name-filtered query is
modelled by its outcome queryResult, and the two by-HREF retrievals
(GetProviderVdcExtendedByHref when extended, GetProviderVdcByHref
otherwise) by the functions getExtendedByHref and getByHref from HREF to
outcome.  Zero records yield the ErrorEntityNotFound sentinel, more than
one record yields a formatted error, and one record is fetched through the
selected by-HREF retrieval, whose outcome is returned as is. -/
def getProviderVdcByName (queryResult : Except LookupError (List VMWProviderVdcRecord))
    (getExtendedByHref getByHref : String → Except LookupError ProviderVdcEntity)
    (providerVdcName : String) (extended : Bool) : Except LookupError ProviderVdcEntity :=
  match queryResult with
  | .error e => .error e
  | .ok foundProviderVdcs =>
    match foundProviderVdcs with
    | [] => .error ErrorEntityNotFound
    | [record] =>
      if extended then getExtendedByHref record.HREF
      else getByHref record.HREF
    | _ :: _ :: _ =>
      .error (.other ("more than one Provider VDC found with name " ++ providerVdcName))

/-- Modelled from the spec: the status field of a Task.  The implementation
of the Task type and its poller is not among the provided sources (only
their callers are); the spec lists the states Queued and Running with the
terminal states Success, Error, Canceled and Aborted, the Error state
carrying the task error message. -/
inductive TaskStatus where
  | queued
  | running
  | success
  | error (message : String)
  | canceled
  | aborted
deriving DecidableEq, Inhabited

/-- Modelled from the spec: whether a task status is terminal. -/
def TaskStatus.isTerminal : TaskStatus → Bool
  | .success => true
  | .error _ => true
  | .canceled => true
  | .aborted => true
  | _ => false

/-- Modelled from the spec: the outcome of waiting for a task. -/
inductive TaskWaitResult where
  | completed (finalStatus : TaskStatus)
  | taskFailed (message : String)
  | timedOut
deriving DecidableEq, Inhabited

/-- Modelled from the spec: the outcome the poller reports for a terminal
status; an Error status propagates the task error message verbatim. -/
def taskOutcome : TaskStatus → TaskWaitResult
  | .error message => .taskFailed message
  | status => .completed status

/-- Modelled from the spec: the polling loop of Task.WaitTaskCompletion,
which is not among the provided sources.  The i-th poll of the task status
field is modelled by poll i; the loop returns the outcome of the first
terminal status it observes and a timeout error when the configured
maximum number of polls is exhausted without observing one. -/
def waitTaskLoop (poll : Nat → TaskStatus) : Nat → Nat → TaskWaitResult
  | 0, _ => .timedOut
  | fuel + 1, i =>
    if (poll i).isTerminal then taskOutcome (poll i)
    else waitTaskLoop poll fuel (i + 1)

/-- Modelled from the spec: Task.WaitTaskCompletion, polling from the first
observation with the configured maximum number of polls as the timeout
budget. -/
def WaitTaskCompletion (poll : Nat → TaskStatus) (maxPolls : Nat) : TaskWaitResult :=
  waitTaskLoop poll maxPolls 0

/-- Modelled from the spec: one page of a paginated OpenAPI list response;
hasNextPageLink records whether the page carries a link to a next page. -/
structure ResponsePage (α : Type) where
  values          : List α
  hasNextPageLink : Bool
deriving DecidableEq, Inhabited

/-- Modelled from the spec: the page-combining loop of the OpenAPI list
helper (OpenApiGetAllItems and the generic getAllInnerEntities plumbing),
which is not among the provided sources.  The HTTP retrieval of the i-th
page is modelled by its outcome fetchPage i.  The loop accumulates the
values of each fetched page in page order, follows next-page links until a
page lacks one, and aborts with the error of the first failing page fetch;
the fuel bounds the number of requests and is chosen larger than the
length of any chain considered. -/
def openApiGetAllPages {α : Type} (fetchPage : Nat → Except String (ResponsePage α)) :
    Nat → Nat → Except String (List α)
  | 0, _ => .error "page limit exceeded"
  | fuel + 1, i =>
    match fetchPage i with
    | .error e => .error e
    | .ok page =>
      if page.hasNextPageLink then
        match openApiGetAllPages fetchPage fuel (i + 1) with
        | .error e => .error e
        | .ok rest => .ok (page.values ++ rest)
      else
        .ok page.values

/-- Modelled from the spec: the OpenAPI get-all helper starting at the
first page. -/
def openApiGetAllItems {α : Type} (fetchPage : Nat → Except String (ResponsePage α))
    (fuel : Nat) : Except String (List α) :=
  openApiGetAllPages fetchPage fuel 0

/-- The per-rule matching predicate exactly as claim C1 words it: every
non-nil field of the rule matches the corresponding attribute of the
entry, with object type and object name compared by plain string equality
and key and value tested by the regexes.  This is a spec-side definition,
written only to be compared with the source-side
filterSingleGenericMetadataEntry. -/
def specC1RuleMatches (entryToIgnore : IgnoredMetadata)
    (e : normalisedMetadata) : Bool :=
  (match entryToIgnore.ObjectType with
   | none => true
   | some t => t == e.ObjectType) &&
  (match entryToIgnore.ObjectName with
   | none => true
   | some n => n == e.ObjectName) &&
  (match entryToIgnore.KeyRegex with
   | none => true
   | some r => r.MatchString e.Key) &&
  (match entryToIgnore.ValueRegex with
   | none => true
   | some r => r.MatchString e.Value)

/-- The filter predicate exactly as claim C1 words it: some rule has at
least one non-nil field and every non-nil field of that rule matches per
specC1RuleMatches. -/
def specC1Filter (e : normalisedMetadata) (metadataToIgnore : List IgnoredMetadata) : Bool :=
  metadataToIgnore.any (fun r => !allFieldsNil r && specC1RuleMatches r e)

/-- Looking up the second-to-last element of a list with at least two
elements is looking up index one from the end. -/
theorem getD_length_sub_two_eq_reverse_getD_one (l : List String) (h : 2 ≤ l.length) :
    l.getD (l.length - 2) "" = l.reverse.getD 1 "" := by
  rw [List.getD_eq_getElem?_getD, List.getD_eq_getElem?_getD,
    List.getElem?_reverse (by omega)]
  congr 2

/-- C5: for every HREF string, the object type computed by
getMetadataObjectTypeFromHref is the second-to-last slash-separated segment
of the HREF, and the function returns an error exactly when the HREF splits
into fewer than two segments. -/
theorem getMetadataObjectTypeFromHref_second_to_last (href : String) :
    (2 ≤ (goSplit href (Char.ofNat 47)).length →
      getMetadataObjectTypeFromHref href =
        .ok ((goSplit href (Char.ofNat 47)).reverse.getD 1 "")) ∧
    ((getMetadataObjectTypeFromHref href).isOk = false ↔
      (goSplit href (Char.ofNat 47)).length < 2) := by
  constructor
  · intro h2
    unfold getMetadataObjectTypeFromHref
    rw [if_neg (by omega)]
    rw [getD_length_sub_two_eq_reverse_getD_one _ h2]
  · unfold getMetadataObjectTypeFromHref
    by_cases h : (goSplit href (Char.ofNat 47)).length < 2
    · rw [if_pos h]
      simp [Except.isOk, Except.toBool, h]
    · rw [if_neg h]
      simp [Except.isOk, Except.toBool, h]

/-- Witness for C5 at a concrete HREF of the documented shape. -/
theorem getMetadataObjectTypeFromHref_second_to_last_witness :
    2 ≤ (goSplit "https://vcd.example.com/api/admin/org/11582a00" (Char.ofNat 47)).length ∧
    getMetadataObjectTypeFromHref "https://vcd.example.com/api/admin/org/11582a00" =
      .ok "org" :=
  ⟨by decide,
   ((getMetadataObjectTypeFromHref_second_to_last
      "https://vcd.example.com/api/admin/org/11582a00").1 (by decide)).trans (by rfl)⟩

/-- C9: addMetadata sends, for the GENERAL domain (isSystem false), an
entry whose domain is GENERAL and whose visibility is forced to read-write
regardless of the caller-supplied visibility, on a path ending in
/metadata/(key); for the SYSTEM domain (isSystem true) an entry with
domain SYSTEM keeping the caller-supplied visibility, on a path ending in
/metadata/SYSTEM/(key). -/
theorem addMetadata_domain_visibility_path
    (apiEndpointPath requestUri name key value typedValue visibility : String)
    (ignoredMetadata : List IgnoredMetadata) (req : AddMetadataRequest) :
    (addMetadata apiEndpointPath requestUri name key value typedValue visibility
        false ignoredMetadata = .ok req →
      req.path = apiEndpointPath ++ "/metadata/" ++ key ∧
      req.newMetadata.Domain =
        some { Visibility := MetadataReadWriteVisibility, Domain := "GENERAL" }) ∧
    (addMetadata apiEndpointPath requestUri name key value typedValue visibility
        true ignoredMetadata = .ok req →
      req.path = apiEndpointPath ++ "/metadata/SYSTEM/" ++ key ∧
      req.newMetadata.Domain =
        some { Visibility := visibility, Domain := "SYSTEM" }) := by
  constructor
  · intro h
    simp only [addMetadata, Bool.false_eq_true, if_false] at h
    split at h
    · exact absurd h (by simp)
    · rw [Except.ok.injEq] at h
      subst h
      refine ⟨rfl, ?_⟩
      by_cases hv : visibility = MetadataReadWriteVisibility
      · simp [hv]
      · simp [hv]
  · intro h
    simp only [addMetadata, if_true] at h
    split at h
    · exact absurd h (by simp)
    · rw [Except.ok.injEq] at h
      subst h
      exact ⟨rfl, rfl⟩

/-- Witness for C9 at concrete inputs, exercising both the GENERAL and the
SYSTEM branch. -/
theorem addMetadata_domain_visibility_path_witness :
    ((⟨"/api/vApp/vapp-1/metadata/k",
        ⟨XMLNamespaceVCloud, XMLNamespaceXSI, ⟨"MetadataStringValue", "val"⟩,
         some ⟨MetadataReadWriteVisibility, "GENERAL"⟩⟩⟩ : AddMetadataRequest).path =
        "/api/vApp/vapp-1" ++ "/metadata/" ++ "k" ∧
      (⟨"/api/vApp/vapp-1/metadata/k",
        ⟨XMLNamespaceVCloud, XMLNamespaceXSI, ⟨"MetadataStringValue", "val"⟩,
         some ⟨MetadataReadWriteVisibility, "GENERAL"⟩⟩⟩ : AddMetadataRequest).newMetadata.Domain =
        some ⟨MetadataReadWriteVisibility, "GENERAL"⟩) ∧
    ((⟨"/api/vApp/vapp-1/metadata/SYSTEM/k",
        ⟨XMLNamespaceVCloud, XMLNamespaceXSI, ⟨"MetadataStringValue", "val"⟩,
         some ⟨"READONLY", "SYSTEM"⟩⟩⟩ : AddMetadataRequest).path =
        "/api/vApp/vapp-1" ++ "/metadata/SYSTEM/" ++ "k" ∧
      (⟨"/api/vApp/vapp-1/metadata/SYSTEM/k",
        ⟨XMLNamespaceVCloud, XMLNamespaceXSI, ⟨"MetadataStringValue", "val"⟩,
         some ⟨"READONLY", "SYSTEM"⟩⟩⟩ : AddMetadataRequest).newMetadata.Domain =
        some ⟨"READONLY", "SYSTEM"⟩) :=
  ⟨(addMetadata_domain_visibility_path "/api/vApp/vapp-1" "https://h/api/vApp/vapp-1"
      "v" "k" "val" "MetadataStringValue" "READONLY" [] _).1 (by rfl),
   (addMetadata_domain_visibility_path "/api/vApp/vapp-1" "https://h/api/vApp/vapp-1"
      "v" "k" "val" "MetadataStringValue" "READONLY" [] _).2 (by rfl)⟩

/-- C10: whenever the ignore filter leaves no metadata entries to send (in
particular whenever the input metadata map is empty), mergeAllMetadata
returns an error and issues no HTTP request (the model only reaches the
POST request through the ok result). -/
theorem mergeAllMetadata_errors_when_nothing_to_merge
    (requestUri name : String) (metadata : List (String × MetadataValue))
    (ignoredMetadata : List IgnoredMetadata)
    (h : ∀ f, filterXmlMetadata (mergeAllMetadataPayload metadata) requestUri name
        ignoredMetadata = .ok f → f.MetadataEntry = []) :
    ∃ e, mergeAllMetadata requestUri name metadata ignoredMetadata = .error e := by
  unfold mergeAllMetadata
  cases hf : filterXmlMetadata (mergeAllMetadataPayload metadata) requestUri name
      ignoredMetadata with
  | error e => exact ⟨e, rfl⟩
  | ok f =>
    have hempty : f.MetadataEntry = [] := h f hf
    exact ⟨"after filtering metadata, there is no metadata to merge", by simp [hempty]⟩

/-- Witness for C10: an empty metadata map with no ignore rules makes the
merge fail before any request is issued. -/
theorem mergeAllMetadata_errors_when_nothing_to_merge_witness :
    ∃ e, mergeAllMetadata "https://h/api/org/1" "o" [] [] = .error e :=
  mergeAllMetadata_errors_when_nothing_to_merge "https://h/api/org/1" "o" [] []
    (fun f hf => by
      have h2 := Except.ok.inj hf
      rw [← h2]
      rfl)

/-- The per-rule condition of the source filter, spelled out: the rule has
a non-nil field, a non-nil object type is blank or equal, a non-nil object
name is blank or the entry name is blank or they are equal, and the
regexes, when present, match the key and the value. -/
theorem ruleIgnoresEntry_iff (r : IgnoredMetadata) (e : normalisedMetadata) :
    ruleIgnoresEntry r e = true ↔
      (r.ObjectType ≠ none ∨ r.ObjectName ≠ none ∨ r.KeyRegex ≠ none ∨ r.ValueRegex ≠ none) ∧
      (∀ t, r.ObjectType = some t → goTrimSpace t = "" ∨ t = e.ObjectType) ∧
      (∀ n, r.ObjectName = some n →
        goTrimSpace n = "" ∨ goTrimSpace e.ObjectName = "" ∨ n = e.ObjectName) ∧
      (∀ rx, r.KeyRegex = some rx → rx.MatchString e.Key = true) ∧
      (∀ rx, r.ValueRegex = some rx → rx.MatchString e.Value = true) := by
  obtain ⟨ot, onm, kr, vr⟩ := r
  unfold ruleIgnoresEntry allFieldsNil objectTypeCondition objectNameCondition
    keyRegexCondition valueRegexCondition
  cases ot <;> cases onm <;> cases kr <;> cases vr <;>
    simp [beq_iff_eq, and_assoc, or_assoc]

/-- Counterexample to C1: a rule whose object type is non-nil but empty is
treated by the source filter as matching any object type, so the filter
returns true on an entry of object type org although no rule of the spec
wording (string equality on the non-nil object type) matches it. -/
theorem filterSingleGenericMetadataEntry_blank_type_counterexample :
    filterSingleGenericMetadataEntry ⟨"org", "myOrg", "someKey", "someValue"⟩
        [⟨some "", none, none, none⟩] = true ∧
      specC1Filter ⟨"org", "myOrg", "someKey", "someValue"⟩
        [⟨some "", none, none, none⟩] = false :=
  ⟨by decide, by decide⟩

/-- C1 amended: the filter returns true iff some rule has at least one
non-nil field and every non-nil field of that rule matches the entry,
where a non-nil but empty or whitespace-only object-type or object-name
field matches any entry, the object-name condition also holds when the
entry object name is blank, and key and value are tested by the regexes;
a rule whose four fields are all nil never causes the predicate to return
true. -/
theorem filterSingleGenericMetadataEntry_iff
    (e : normalisedMetadata) (metadataToIgnore : List IgnoredMetadata) :
    filterSingleGenericMetadataEntry e metadataToIgnore = true ↔
      ∃ r ∈ metadataToIgnore,
        (r.ObjectType ≠ none ∨ r.ObjectName ≠ none ∨ r.KeyRegex ≠ none ∨ r.ValueRegex ≠ none) ∧
        (∀ t, r.ObjectType = some t → goTrimSpace t = "" ∨ t = e.ObjectType) ∧
        (∀ n, r.ObjectName = some n →
          goTrimSpace n = "" ∨ goTrimSpace e.ObjectName = "" ∨ n = e.ObjectName) ∧
        (∀ rx, r.KeyRegex = some rx → rx.MatchString e.Key = true) ∧
        (∀ rx, r.ValueRegex = some rx → rx.MatchString e.Value = true) := by
  unfold filterSingleGenericMetadataEntry
  cases metadataToIgnore with
  | nil => simp
  | cons a l =>
    rw [if_neg (by simp), List.any_eq_true]
    constructor
    · rintro ⟨r, hr, hrule⟩
      exact ⟨r, hr, (ruleIgnoresEntry_iff r e).mp hrule⟩
    · rintro ⟨r, hr, hprops⟩
      exact ⟨r, hr, (ruleIgnoresEntry_iff r e).mpr hprops⟩

/-- Witness for the amended C1 at a concrete rule and entry. -/
theorem filterSingleGenericMetadataEntry_iff_witness :
    filterSingleGenericMetadataEntry ⟨"org", "x", "k", "v"⟩
      [⟨some "org", none, none, none⟩] = true :=
  (filterSingleGenericMetadataEntry_iff ⟨"org", "x", "k", "v"⟩
      [⟨some "org", none, none, none⟩]).mpr
    ⟨⟨some "org", none, none, none⟩, by simp, Or.inl (by simp),
     fun t ht => by injection ht with h2; exact Or.inr h2.symm,
     fun n hn => by simp at hn,
     fun rx hrx => by simp at hrx,
     fun rx hrx => by simp at hrx⟩

/-- C8: a non-nil but empty or whitespace-only object-type or object-name
rule field is a wildcard that matches any entry, the object-name condition
is also satisfied whenever the entry object name is blank (the ByHref
case), and such rules therefore suppress entries both in the generic read
filter and in the delete filter loop regardless of those attributes. -/
theorem ignoredMetadata_blank_fields_are_wildcards
    (r : IgnoredMetadata) (e : normalisedMetadata) :
    (∀ t, r.ObjectType = some t → goTrimSpace t = "" →
      objectTypeCondition r.ObjectType e.ObjectType = true) ∧
    (∀ n, r.ObjectName = some n → goTrimSpace n = "" →
      objectNameCondition r.ObjectName e.ObjectName = true) ∧
    (goTrimSpace e.ObjectName = "" →
      objectNameCondition r.ObjectName e.ObjectName = true) ∧
    (∀ rules, r ∈ rules → allFieldsNil r = false →
      (r.ObjectType = none ∨ ∃ t, r.ObjectType = some t ∧ goTrimSpace t = "") →
      (r.ObjectName = none ∨ (∃ n, r.ObjectName = some n ∧ goTrimSpace n = "") ∨
        goTrimSpace e.ObjectName = "") →
      keyRegexCondition r.KeyRegex e.Key = true →
      valueRegexCondition r.ValueRegex e.Value = true →
      filterSingleGenericMetadataEntry e rules = true) ∧
    (∀ httpGet key href objectName objectType ignoredMetadata,
      r.ValueRegex = none → allFieldsNil r = false →
      (r.ObjectType = none ∨ ∃ t, r.ObjectType = some t ∧ goTrimSpace t = "") →
      (r.ObjectName = none ∨ (∃ n, r.ObjectName = some n ∧ goTrimSpace n = "") ∨
        goTrimSpace objectName = "") →
      keyRegexCondition r.KeyRegex key = true →
      ∃ msg, filterMetadataToDeleteLoop httpGet key href objectName objectType
        ignoredMetadata [r] = .error msg) := by
  have htype : ∀ objectType : String,
      (r.ObjectType = none ∨ ∃ t, r.ObjectType = some t ∧ goTrimSpace t = "") →
      objectTypeCondition r.ObjectType objectType = true := by
    rintro objectType (hnone | ⟨t, ht, hblank⟩)
    · simp [objectNameCondition, hnone, objectTypeCondition]
    · simp [objectTypeCondition, ht, hblank]
  have hname : ∀ objectName : String,
      (r.ObjectName = none ∨ (∃ n, r.ObjectName = some n ∧ goTrimSpace n = "") ∨
        goTrimSpace objectName = "") →
      objectNameCondition r.ObjectName objectName = true := by
    rintro objectName (hnone | ⟨n, hn, hblank⟩ | hentry)
    · simp [objectNameCondition, hnone]
    · simp [objectNameCondition, hn, hblank]
    · cases hrn : r.ObjectName with
      | none => simp [objectNameCondition]
      | some n => simp [objectNameCondition, hentry]
  refine ⟨?_, ?_, ?_, ?_, ?_⟩
  · intro t ht hblank
    simp [objectTypeCondition, ht, hblank]
  · intro n hn hblank
    simp [objectNameCondition, hn, hblank]
  · intro hblank
    exact hname e.ObjectName (Or.inr (Or.inr hblank))
  · intro rules hmem hnonnil htypeH hnameH hkey hvalue
    unfold filterSingleGenericMetadataEntry
    rw [if_neg (by cases rules with
      | nil => simp at hmem
      | cons a l => simp)]
    refine List.any_eq_true.mpr ⟨r, hmem, ?_⟩
    unfold ruleIgnoresEntry
    rw [if_neg (by simp [hnonnil])]
    rw [htype e.ObjectType htypeH, hname e.ObjectName hnameH, hkey, hvalue]
    rfl
  · intro httpGet key href objectName objectType ignoredMetadata hvr hnonnil htypeH hnameH hkey
    unfold filterMetadataToDeleteLoop
    rw [if_neg (by simp [hnonnil])]
    rw [htype objectType htypeH, hname objectName hnameH, hkey]
    simp [hvr]

/-- Witness for C8: a rule with a whitespace-only object type and a
non-matching object name suppresses an entry whose own object name is
blank, for both the read filter and the delete filter loop. -/
theorem ignoredMetadata_blank_fields_are_wildcards_witness :
    filterSingleGenericMetadataEntry ⟨"vapp", "", "k", "v"⟩
        [⟨some " ", some "X", none, none⟩] = true ∧
      ∃ msg, filterMetadataToDeleteLoop (.ok default) "k" "h" "" "vapp" []
        [⟨some " ", some "X", none, none⟩] = .error msg :=
  ⟨(ignoredMetadata_blank_fields_are_wildcards ⟨some " ", some "X", none, none⟩
      ⟨"vapp", "", "k", "v"⟩).2.2.2.1 [⟨some " ", some "X", none, none⟩]
      (by simp) (by decide) (Or.inr ⟨" ", rfl, by decide⟩)
      (Or.inr (Or.inr (by decide))) (by decide) (by decide),
   (ignoredMetadata_blank_fields_are_wildcards ⟨some " ", some "X", none, none⟩
      ⟨"vapp", "", "k", "v"⟩).2.2.2.2 (.ok default) "k" "h" "" "vapp" []
      rfl (by decide) (Or.inr ⟨" ", rfl, by decide⟩)
      (Or.inr (Or.inr (by decide))) (by decide)⟩

/-- Substring occurrence is preserved by prepending characters. -/
theorem containsChunk_append_left (p l1 l2 : List Char)
    (h : containsChunk p l2 = true) : containsChunk p (l1 ++ l2) = true := by
  induction l1 with
  | nil => simpa using h
  | cons c cs ih =>
    show (chunkLeads p (c :: (cs ++ l2)) || containsChunk p (cs ++ l2)) = true
    rw [Bool.or_eq_true]
    exact Or.inr ih

/-- Substring occurrence is preserved by prepending a string. -/
theorem goContains_append_left (s t sub : String)
    (h : goContains t sub = true) : goContains (s ++ t) sub = true := by
  unfold goContains
  rw [String.data_append]
  exact containsChunk_append_left _ _ _ h

/-- The error message produced for an ignored XML metadata entry always
contains the word ignored, whatever the key and value are. -/
theorem goContains_ignored_msg (a b : String) :
    goContains ("the metadata entry with key " ++ a ++ " and value " ++ b ++
      " is being ignored") "ignored" = true := by
  apply goContains_append_left
  decide

/-- The entry loop of filterXmlMetadata keeps exactly the entries not
matched by the generic filter, in order, when the HREF yields an object
type. -/
theorem filterXmlMetadataLoop_eq (href objectName : String)
    (metadataToIgnore : List IgnoredMetadata) (objectType : String)
    (hhref : getMetadataObjectTypeFromHref href = .ok objectType) :
    ∀ entries : List MetadataEntry,
      filterXmlMetadataLoop href objectName metadataToIgnore entries =
        .ok (entries.filter (fun entry =>
          !filterSingleGenericMetadataEntry
            ⟨objectType, objectName, entry.Key, entry.TypedValue.Value⟩
            metadataToIgnore)) := by
  intro entries
  induction entries with
  | nil => rfl
  | cons entry rest ih =>
    unfold filterXmlMetadataLoop filterSingleXmlMetadataEntry normaliseXmlMetadata
    rw [hhref]
    by_cases hf : filterSingleGenericMetadataEntry
        ⟨objectType, objectName, entry.Key, entry.TypedValue.Value⟩ metadataToIgnore = true
    · simp only [hf, if_true, goContains_ignored_msg, ih, List.filter_cons,
        Bool.not_true, Bool.false_eq_true, ite_false]
    · rw [Bool.not_eq_true] at hf
      simp only [hf, Bool.false_eq_true, if_false, ih, List.filter_cons,
        Bool.not_false, ite_true]

/-- C3 amended: with no ignore rules filterXmlMetadata returns its input
unchanged, and whenever the HREF splits into at least two slash-separated
segments it returns a copy of the metadata whose entry list is exactly the
input entries not matched by any ignore rule, in the same relative order,
all header fields preserved.  The restriction to such HREFs is the
correction: the original claim quantified over every HREF, and the
counterexample shows it fails on an HREF without a slash. -/
theorem filterXmlMetadata_filters (m : Metadata) (href objectName : String)
    (metadataToIgnore : List IgnoredMetadata) :
    (metadataToIgnore = [] →
      filterXmlMetadata m href objectName metadataToIgnore = .ok m) ∧
    (2 ≤ (goSplit href (Char.ofNat 47)).length →
      filterXmlMetadata m href objectName metadataToIgnore =
        .ok { m with MetadataEntry := m.MetadataEntry.filter (fun entry =>
          !filterSingleGenericMetadataEntry
            ⟨(goSplit href (Char.ofNat 47)).getD
                ((goSplit href (Char.ofNat 47)).length - 2) "",
              objectName, entry.Key, entry.TypedValue.Value⟩
            metadataToIgnore) }) := by
  constructor
  · intro hnil
    subst hnil
    rfl
  · intro h2
    have hhref : getMetadataObjectTypeFromHref href =
        .ok ((goSplit href (Char.ofNat 47)).getD
          ((goSplit href (Char.ofNat 47)).length - 2) "") := by
      unfold getMetadataObjectTypeFromHref
      rw [if_neg (by omega)]
    cases metadataToIgnore with
    | nil =>
      have hall : ∀ entry ∈ m.MetadataEntry,
          (!filterSingleGenericMetadataEntry
            ⟨(goSplit href (Char.ofNat 47)).getD
                ((goSplit href (Char.ofNat 47)).length - 2) "",
              objectName, entry.Key, entry.TypedValue.Value⟩ []) = true :=
        fun entry _ => rfl
      rw [List.filter_eq_self.mpr hall]
      rfl
    | cons a l =>
      unfold filterXmlMetadata
      rw [if_neg (by simp)]
      rw [filterXmlMetadataLoop_eq href objectName (a :: l) _ hhref m.MetadataEntry]

/-- Counterexample to C3: with a non-empty rule list and an HREF that does
not contain a slash, filterXmlMetadata does not return the filtered entry
list the claim describes but propagates the object-type extraction error. -/
theorem filterXmlMetadata_malformed_href_counterexample :
    filterXmlMetadata
        ⟨"", "", "", "", "", [], [⟨"", "", "k", ⟨"MetadataStringValue", "v"⟩, none⟩]⟩
        "nohref" "obj" [⟨some "org", none, none, none⟩] =
      .error "could not find any object type in the provided HREF nohref" := by
  rfl

/-- Witness for the amended C3 at a concrete metadata list, HREF and rule
list: the single entry of an org object is stripped. -/
theorem filterXmlMetadata_filters_witness :
    2 ≤ (goSplit "https://h/api/org/1" (Char.ofNat 47)).length ∧
    filterXmlMetadata
        ⟨"x", "", "", "", "", [], [⟨"", "", "k", ⟨"MetadataStringValue", "v"⟩, none⟩]⟩
        "https://h/api/org/1" "o" [⟨some "org", none, none, none⟩] =
      .ok ⟨"x", "", "", "", "", [], []⟩ :=
  ⟨by decide,
   ((filterXmlMetadata_filters
      ⟨"x", "", "", "", "", [], [⟨"", "", "k", ⟨"MetadataStringValue", "v"⟩, none⟩]⟩
      "https://h/api/org/1" "o" [⟨some "org", none, none, none⟩]).2 (by decide)).trans
    (by rfl)⟩

/-- The delete-filter loop rejects with an error whenever some rule of the
scanned suffix matches the normalised entry and the full rule list matches
it as well (so that the nested read of the value is itself filtered). -/
theorem filterMetadataToDeleteLoop_errors (v : MetadataValue)
    (requestUri name key objectType : String)
    (ignoredMetadata : List IgnoredMetadata)
    (hhref : getMetadataObjectTypeFromHref requestUri = .ok objectType)
    (hmatch : filterSingleGenericMetadataEntry
      ⟨objectType, name, key, v.TypedValue.Value⟩ ignoredMetadata = true) :
    ∀ sub : List IgnoredMetadata,
      sub.any (fun r => ruleIgnoresEntry r ⟨objectType, name, key, v.TypedValue.Value⟩) = true →
      ∃ msg, filterMetadataToDeleteLoop (.ok v) key requestUri name objectType
        ignoredMetadata sub = .error msg := by
  have hfetch : getMetadataByKey (.ok v) requestUri name key ignoredMetadata =
      .error ("the metadata entry with key " ++ key ++ " and value " ++
        v.TypedValue.Value ++ " is being ignored") := by
    unfold getMetadataByKey filterSingleXmlMetadataEntry normaliseXmlMetadata
    rw [hhref]
    simp only [hmatch, if_true]
  intro sub
  induction sub with
  | nil => simp
  | cons r rest ih =>
    intro hany
    rw [List.any_cons, Bool.or_eq_true] at hany
    by_cases hnil : allFieldsNil r = true
    · have hre : ruleIgnoresEntry r ⟨objectType, name, key, v.TypedValue.Value⟩ = false := by
        unfold ruleIgnoresEntry
        rw [if_pos hnil]
      unfold filterMetadataToDeleteLoop
      rw [if_pos hnil]
      apply ih
      cases hany with
      | inl h => rw [hre] at h; exact absurd h (by simp)
      | inr h => exact h
    · unfold filterMetadataToDeleteLoop
      rw [if_neg hnil]
      by_cases hcand : (objectTypeCondition r.ObjectType objectType &&
          objectNameCondition r.ObjectName name &&
          keyRegexCondition r.KeyRegex key) = true
      · rw [if_pos hcand]
        cases hvr : r.ValueRegex with
        | none => exact ⟨_, rfl⟩
        | some rx =>
          rw [hfetch]
          exact ⟨_, rfl⟩
      · rw [if_neg hcand]
        apply ih
        cases hany with
        | inl h =>
          exfalso
          apply hcand
          unfold ruleIgnoresEntry at h
          rw [if_neg hnil] at h
          simp only [Bool.and_eq_true] at h ⊢
          exact ⟨⟨h.1.1.1, h.1.1.2⟩, h.1.2⟩
        | inr h => exact h

/-- C2: for a metadata entry (of the remotely stored value v at the key)
that matches the ignore-rule list, deleteMetadata returns an error and the
HTTP DELETE request is not issued, leaving the remote metadata unchanged. -/
theorem deleteMetadata_rejects_ignored_entries (v : MetadataValue)
    (requestUri name key : String) (isSystem : Bool)
    (ignoredMetadata : List IgnoredMetadata) (objectType : String)
    (hhref : getMetadataObjectTypeFromHref requestUri = .ok objectType)
    (hmatch : filterSingleGenericMetadataEntry
      ⟨objectType, name, key, v.TypedValue.Value⟩ ignoredMetadata = true) :
    ∃ e, deleteMetadata (.ok v) requestUri name key isSystem ignoredMetadata =
      (.error e, false) := by
  have hne : ignoredMetadata.isEmpty = false := by
    cases ignoredMetadata with
    | nil => exact Bool.noConfusion hmatch
    | cons a l => rfl
  have hany : ignoredMetadata.any
      (fun r => ruleIgnoresEntry r ⟨objectType, name, key, v.TypedValue.Value⟩) = true := by
    unfold filterSingleGenericMetadataEntry at hmatch
    rw [if_neg (by simp [hne])] at hmatch
    exact hmatch
  obtain ⟨msg, hmsg⟩ := filterMetadataToDeleteLoop_errors v requestUri name key objectType
    ignoredMetadata hhref hmatch ignoredMetadata hany
  have hfd : filterMetadataToDelete (.ok v) key requestUri name isSystem ignoredMetadata =
      .error msg := by
    unfold filterMetadataToDelete
    rw [if_neg (by simp [hne]), hhref]
    exact hmsg
  exact ⟨msg, by unfold deleteMetadata; rw [hfd]⟩

/-- Witness for C2: deleting the key of an org entry matched by an
object-type rule fails and issues no DELETE request. -/
theorem deleteMetadata_rejects_ignored_entries_witness :
    ∃ e, deleteMetadata (.ok ⟨"", "", ⟨"MetadataStringValue", "secret"⟩, none⟩)
      "https://h/api/org/1" "o" "k" false [⟨some "org", none, none, none⟩] =
      (.error e, false) :=
  deleteMetadata_rejects_ignored_entries ⟨"", "", ⟨"MetadataStringValue", "secret"⟩, none⟩
    "https://h/api/org/1" "o" "k" false [⟨some "org", none, none, none⟩] "org"
    (by rfl) (by decide)

/-- Counterexample to C4: getProviderVdcByName, with a successful list
retrieval returning exactly one matching record, returns the error of the
subsequent by-HREF retrieval instead of the entity with a nil error. -/
theorem getProviderVdcByName_single_match_fetch_error :
    getProviderVdcByName (.ok [⟨"pvdc1", "https://h/api/admin/providervdc/1"⟩])
      (fun _ => .error (.other "remote failure"))
      (fun _ => .error (.other "remote failure"))
      "pvdc1" false = .error (.other "remote failure") := by
  rfl

/-- C4 amended: for the by-name lookups, when the underlying list retrieval
succeeds, zero matching entities yield the ErrorEntityNotFound sentinel and
more than one matching entity yields a non-sentinel error; on exactly one
match GetRightsBundleByName and getCertificateFromLibraryByName return that
entity with a nil error, while getProviderVdcByName returns the outcome of
the subsequent by-HREF retrieval, which is the entity with a nil error
when that retrieval succeeds. -/
theorem byNameLookup_match_classification
    (name : String) (rbs : List RightsBundle) (certs : List Certificate)
    (slowSearch : Bool) (records : List VMWProviderVdcRecord)
    (getExtendedByHref getByHref : String → Except LookupError ProviderVdcEntity)
    (extended : Bool) :
    (rbs = [] → GetRightsBundleByName (.ok rbs) name = .error ErrorEntityNotFound) ∧
    (1 < rbs.length →
      ∃ m, GetRightsBundleByName (.ok rbs) name = .error (.other m)) ∧
    (∀ rb, rbs = [rb] → GetRightsBundleByName (.ok rbs) name = .ok rb) ∧
    (certs = [] → getCertificateFromLibraryByName slowSearch (.ok certs) name =
      .error ErrorEntityNotFound) ∧
    (slowSearch = false → 1 < certs.length →
      ∃ m, getCertificateFromLibraryByName slowSearch (.ok certs) name = .error (.other m)) ∧
    (∀ c, certs = [c] → slowSearch = false →
      getCertificateFromLibraryByName slowSearch (.ok certs) name = .ok c) ∧
    (slowSearch = true → certs ≠ [] →
      (certs.filter (fun c => c.CertificateLibrary.Alias == name) = [] →
        getCertificateFromLibraryByName slowSearch (.ok certs) name =
          .error ErrorEntityNotFound) ∧
      (1 < (certs.filter (fun c => c.CertificateLibrary.Alias == name)).length →
        ∃ m, getCertificateFromLibraryByName slowSearch (.ok certs) name =
          .error (.other m)) ∧
      (∀ c, certs.filter (fun c2 => c2.CertificateLibrary.Alias == name) = [c] →
        getCertificateFromLibraryByName slowSearch (.ok certs) name = .ok c)) ∧
    (records = [] → getProviderVdcByName (.ok records) getExtendedByHref getByHref
      name extended = .error ErrorEntityNotFound) ∧
    (1 < records.length →
      ∃ m, getProviderVdcByName (.ok records) getExtendedByHref getByHref
        name extended = .error (.other m)) ∧
    (∀ record, records = [record] →
      getProviderVdcByName (.ok records) getExtendedByHref getByHref name extended =
        (if extended then getExtendedByHref record.HREF else getByHref record.HREF) ∧
      (∀ entity,
        (if extended then getExtendedByHref record.HREF else getByHref record.HREF) =
          .ok entity →
        getProviderVdcByName (.ok records) getExtendedByHref getByHref name extended =
          .ok entity)) := by
  refine ⟨?_, ?_, ?_, ?_, ?_, ?_, ?_, ?_, ?_, ?_⟩
  · intro h; subst h; rfl
  · intro h
    match rbs, h with
    | a :: b :: t, _ => exact ⟨_, rfl⟩
  · intro rb h; subst h; rfl
  · intro h; subst h; rfl
  · intro hslow h
    subst hslow
    match certs, h with
    | a :: b :: t, _ =>
      simp only [getCertificateFromLibraryByName]
      rw [if_neg (by simp), if_neg (by simp), if_pos (by simp)]
      exact ⟨_, rfl⟩
  · intro c h hslow
    subst h
    subst hslow
    rfl
  · intro hslow hne
    subst hslow
    have hlen : (certs.length == 0) = false := by
      cases certs with
      | nil => exact absurd rfl hne
      | cons a t => rfl
    refine ⟨?_, ?_, ?_⟩
    · intro hfilter
      simp only [getCertificateFromLibraryByName]
      rw [hlen, if_neg (by simp), if_pos trivial, hfilter]
    · intro hmany
      simp only [getCertificateFromLibraryByName]
      rw [hlen, if_neg (by simp), if_pos trivial]
      cases hf : certs.filter (fun c => c.CertificateLibrary.Alias == name) with
      | nil => rw [hf] at hmany; simp at hmany
      | cons a t =>
        cases t with
        | nil => rw [hf] at hmany; simp at hmany
        | cons b t2 => exact ⟨_, rfl⟩
    · intro c hfilter
      simp only [getCertificateFromLibraryByName]
      rw [hlen, if_neg (by simp), if_pos trivial, hfilter]
  · intro h; subst h; rfl
  · intro h
    match records, h with
    | a :: b :: t, _ => exact ⟨_, rfl⟩
  · intro record h
    subst h
    constructor
    · rfl
    · intro entity hfetch
      rw [← hfetch]
      rfl

/-- Witness for the amended C4: a one-element rights-bundle list returns
the bundle, and a one-record provider VDC query whose by-HREF retrieval
succeeds returns the fetched entity. -/
theorem byNameLookup_match_classification_witness :
    GetRightsBundleByName (.ok [⟨"rb1"⟩]) "rb1" = .ok ⟨"rb1"⟩ ∧
    getProviderVdcByName (.ok [⟨"p", "h1"⟩]) (fun _ => .ok ⟨"id1"⟩)
      (fun _ => .ok ⟨"id1"⟩) "p" false = .ok ⟨"id1"⟩ := by
  obtain ⟨h1, h2, h3, h4, h5, h6, h7, h8, h9, h10⟩ :=
    byNameLookup_match_classification "rb1" [⟨"rb1"⟩] [] false [⟨"p", "h1"⟩]
      (fun _ => .ok ⟨"id1"⟩) (fun _ => .ok ⟨"id1"⟩) false
  exact ⟨h3 ⟨"rb1"⟩ rfl, (h10 ⟨"p", "h1"⟩ rfl).2 ⟨"id1"⟩ rfl⟩

/-- The polling loop returns the outcome of the first terminal status when
one is observed within the fuel budget. -/
theorem waitTaskLoop_first_terminal (poll : Nat → TaskStatus) :
    ∀ fuel i k, k < fuel →
      (∀ j, j < k → (poll (i + j)).isTerminal = false) →
      (poll (i + k)).isTerminal = true →
      waitTaskLoop poll fuel i = taskOutcome (poll (i + k)) := by
  intro fuel
  induction fuel with
  | zero => intro i k hk; omega
  | succ fuel ih =>
    intro i k hk hbefore hterm
    cases k with
    | zero =>
      unfold waitTaskLoop
      have h0 : (poll i).isTerminal = true := by simpa using hterm
      rw [h0, if_pos rfl]
      simp
    | succ k =>
      unfold waitTaskLoop
      have h0 : (poll i).isTerminal = false := by simpa using hbefore 0 (by omega)
      rw [h0]
      simp only [Bool.false_eq_true, if_false]
      have harith : ∀ j : Nat, i + 1 + j = i + (j + 1) := by omega
      have hbefore2 : ∀ j, j < k → (poll (i + 1 + j)).isTerminal = false := by
        intro j hj
        rw [harith j]
        exact hbefore (j + 1) (by omega)
      have hterm2 : (poll (i + 1 + k)).isTerminal = true := by
        rw [harith k]
        exact hterm
      rw [ih (i + 1) k (by omega) hbefore2 hterm2, harith k]

/-- The polling loop times out when no terminal status is observed within
the fuel budget. -/
theorem waitTaskLoop_times_out (poll : Nat → TaskStatus) :
    ∀ fuel i, (∀ j, j < fuel → (poll (i + j)).isTerminal = false) →
      waitTaskLoop poll fuel i = .timedOut := by
  intro fuel
  induction fuel with
  | zero => intro i _; rfl
  | succ fuel ih =>
    intro i hall
    unfold waitTaskLoop
    have h0 : (poll i).isTerminal = false := by simpa using hall 0 (by omega)
    rw [h0]
    simp only [Bool.false_eq_true, if_false]
    apply ih
    intro j hj
    have harith : i + 1 + j = i + (j + 1) := by omega
    rw [harith]
    exact hall (j + 1) (by omega)

/-- C6 (spec-modelled): the task poller blocks until the status first
becomes terminal and terminates at that first terminal poll, returns a
timeout error when the configured maximum number of polls passes without a
terminal status, and on a failure status propagates the task error message
verbatim. -/
theorem WaitTaskCompletion_spec (poll : Nat → TaskStatus) (maxPolls k : Nat) :
    (k < maxPolls →
      (∀ j, j < k → (poll j).isTerminal = false) →
      (poll k).isTerminal = true →
      WaitTaskCompletion poll maxPolls = taskOutcome (poll k) ∧
      (∀ msg, poll k = .error msg →
        WaitTaskCompletion poll maxPolls = .taskFailed msg)) ∧
    ((∀ j, j < maxPolls → (poll j).isTerminal = false) →
      WaitTaskCompletion poll maxPolls = .timedOut) := by
  constructor
  · intro hk hbefore hterm
    have hmain : WaitTaskCompletion poll maxPolls = taskOutcome (poll k) := by
      unfold WaitTaskCompletion
      have := waitTaskLoop_first_terminal poll maxPolls 0 k hk
        (by intro j hj; simpa using hbefore j hj) (by simpa using hterm)
      simpa using this
    refine ⟨hmain, ?_⟩
    intro msg hmsg
    rw [hmain, hmsg]
    rfl
  · intro hall
    unfold WaitTaskCompletion
    exact waitTaskLoop_times_out poll maxPolls 0 (by intro j hj; simpa using hall j hj)

/-- Witness for C6: a task that is running for two polls and then fails
with message boom makes the poller return that message verbatim. -/
theorem WaitTaskCompletion_spec_witness :
    WaitTaskCompletion (fun i => if i < 2 then TaskStatus.running else .error "boom") 5 =
      .taskFailed "boom" :=
  ((WaitTaskCompletion_spec (fun i => if i < 2 then TaskStatus.running else .error "boom")
      5 2).1 (by omega)
    (fun j hj => by interval_cases j <;> rfl) (by rfl)).2 "boom" (by rfl)

/-- Flattening the images of an initial range decomposes as the image of
zero followed by the flattened images of the successors. -/
theorem flatten_map_range_succ {β : Type} (g : Nat → List β) (n : Nat) :
    ((List.range (n + 1)).map g).flatten =
      g 0 ++ ((List.range n).map (fun j => g (j + 1))).flatten := by
  rw [List.range_succ_eq_map]
  simp [List.map_map, Function.comp_def]

/-- The page loop aggregates, in page order, the values of the chain of
pages that starts at the given index and ends at the first page lacking a
next-page link, provided every fetch along the chain succeeds and the fuel
exceeds the chain length. -/
theorem openApiGetAllPages_aggregates {α : Type}
    (fetchPage : Nat → Except String (ResponsePage α)) (pg : Nat → ResponsePage α) :
    ∀ fuel i k, k < fuel →
      (∀ j, j ≤ k → fetchPage (i + j) = .ok (pg (i + j))) →
      (∀ j, j < k → (pg (i + j)).hasNextPageLink = true) →
      (pg (i + k)).hasNextPageLink = false →
      openApiGetAllPages fetchPage fuel i =
        .ok (((List.range (k + 1)).map (fun j => (pg (i + j)).values)).flatten) := by
  intro fuel
  induction fuel with
  | zero => intro i k hk; omega
  | succ fuel ih =>
    intro i k hk hfetch hnext hlast
    unfold openApiGetAllPages
    have hf : fetchPage i = .ok (pg i) := by simpa using hfetch 0 (by omega)
    cases k with
    | zero =>
      have h0 : (pg i).hasNextPageLink = false := by simpa using hlast
      simp only [hf, h0]
      rw [flatten_map_range_succ (fun j => (pg (i + j)).values) 0]
      simp
    | succ k =>
      have h0 : (pg i).hasNextPageLink = true := by simpa using hnext 0 (by omega)
      have harith : ∀ j : Nat, i + 1 + j = i + (j + 1) := by omega
      rw [ih (i + 1) k (by omega)
        (by intro j hj; rw [harith j]; exact hfetch (j + 1) (by omega))
        (by intro j hj; rw [harith j]; exact hnext (j + 1) (by omega))
        (by rw [harith k]; exact hlast)]
      simp only [hf, h0, if_true]
      rw [flatten_map_range_succ (fun j => (pg (i + j)).values) (k + 1)]
      simp [harith]

/-- The page loop aborts with the error of the first failing page fetch. -/
theorem openApiGetAllPages_aborts {α : Type}
    (fetchPage : Nat → Except String (ResponsePage α)) (pg : Nat → ResponsePage α)
    (e : String) :
    ∀ fuel i k, k < fuel →
      (∀ j, j < k → fetchPage (i + j) = .ok (pg (i + j)) ∧
        (pg (i + j)).hasNextPageLink = true) →
      fetchPage (i + k) = .error e →
      openApiGetAllPages fetchPage fuel i = .error e := by
  intro fuel
  induction fuel with
  | zero => intro i k hk; omega
  | succ fuel ih =>
    intro i k hk hchain hfail
    unfold openApiGetAllPages
    cases k with
    | zero =>
      rw [show fetchPage i = .error e by simpa using hfail]
    | succ k =>
      obtain ⟨hf0, hn0⟩ := hchain 0 (by omega)
      have hf : fetchPage i = .ok (pg i) := by simpa using hf0
      have hn : (pg i).hasNextPageLink = true := by simpa using hn0
      have harith : ∀ j : Nat, i + 1 + j = i + (j + 1) := by omega
      rw [ih (i + 1) k (by omega)
        (by intro j hj; rw [harith j]; exact hchain (j + 1) (by omega))
        (by rw [harith k]; exact hfail)]
      simp [hf, hn]

/-- C7 (spec-modelled): the pagination helper returns the concatenation of
the values of all pages in page order, stopping at the first page lacking
a next-page link (pages beyond it are never constrained), and a failure of
any page fetch along the chain aborts the whole retrieval with that error
and no partial result. -/
theorem openApiGetAllItems_spec {α : Type}
    (fetchPage : Nat → Except String (ResponsePage α)) (pg : Nat → ResponsePage α)
    (fuel k : Nat) (e : String) :
    (k < fuel →
      (∀ j, j ≤ k → fetchPage j = .ok (pg j)) →
      (∀ j, j < k → (pg j).hasNextPageLink = true) →
      (pg k).hasNextPageLink = false →
      openApiGetAllItems fetchPage fuel =
        .ok (((List.range (k + 1)).map (fun j => (pg j).values)).flatten)) ∧
    (k < fuel →
      (∀ j, j < k → fetchPage j = .ok (pg j) ∧ (pg j).hasNextPageLink = true) →
      fetchPage k = .error e →
      openApiGetAllItems fetchPage fuel = .error e) := by
  constructor
  · intro hk hfetch hnext hlast
    unfold openApiGetAllItems
    have := openApiGetAllPages_aggregates fetchPage pg fuel 0 k hk
      (by intro j hj; simpa using hfetch j hj)
      (by intro j hj; simpa using hnext j hj) (by simpa using hlast)
    simpa using this
  · intro hk hchain hfail
    unfold openApiGetAllItems
    exact openApiGetAllPages_aborts fetchPage pg e fuel 0 k hk
      (by intro j hj; simpa using hchain j hj) (by simpa using hfail)

/-- Witness for C7: three pages holding one value each, the third lacking
a next-page link, aggregate to the three values in order. -/
theorem openApiGetAllItems_spec_witness :
    openApiGetAllItems (fun i => .ok (⟨[i], decide (i < 2)⟩ : ResponsePage Nat)) 5 =
      .ok [0, 1, 2] :=
  ((openApiGetAllItems_spec (fun i => .ok (⟨[i], decide (i < 2)⟩ : ResponsePage Nat))
      (fun i => ⟨[i], decide (i < 2)⟩) 5 2 "").1 (by omega)
    (fun j _ => rfl) (fun j hj => by interval_cases j <;> rfl) (by rfl)).trans (by rfl)
